import Mathlib

/-!
# VizFlow — verification of the multi-format ingestion subsystem

Shallow embedding of the processor registry/dispatcher
(`backend/processors/index.js`), the Excel and PDF processors
(`backend/processors/excelProcessor.js`, `pdfProcessor.js`), the export
formatter (`utils` module: `exportToCSV` / `exportToExcel` / `exportToJSON` /
`flattenObject`), and the error-log status-update route
(`backend/routes/errors.js`, `models` error-log schema).

JavaScript primitive values are modelled by an explicit value type; machine
`Date.now()` timestamps are modelled as `Nat` parameters supplied by the
caller; the impure `generateRecordId` / `new Date()` per-record tags are
omitted from record payloads (they carry no information the spec talks
about).  External libraries (`xlsx`, `pdf-parse`, `json2csv`, `sharp`,
`tesseract`) are treated as collaborator boundaries: processors are modelled
from the parsed structures those libraries hand back, and serializer calls
are modelled as opaque payload constructors.
-/

namespace VizFlow

/-- A JavaScript primitive value as it appears in spreadsheet cells and
record fields: `null`, `undefined`, booleans, numbers (modelled as `Int`;
the claims only exercise integral values), and strings. -/
inductive Value where
  | vnull
  | vundef
  | vbool (b : Bool)
  | vnum (n : Int)
  | vstr (s : String)
  deriving DecidableEq, Repr

/-- JavaScript truthiness of a primitive `Value`: `null`, `undefined`,
`false`, `0` and `""` are falsy, everything else truthy. -/
def Value.truthy : Value → Bool
  | .vnull => false
  | .vundef => false
  | .vbool b => b
  | .vnum n => n != 0
  | .vstr s => s != ""

/-- JavaScript `ToString` of a primitive value, used when a value is
coerced to a property key (`record[header] = ...`). -/
def Value.toKey : Value → String
  | .vnull => "null"
  | .vundef => "undefined"
  | .vbool b => if b then "true" else "false"
  | .vnum n => toString n
  | .vstr s => s

/-- `.toLowerCase()` via the character list (ASCII lowering, matching the
identifiers and labels in scope). -/
def jsToLower (s : String) : String :=
  (s.toList.map Char.toLower).asString

/-! ## Processor registry (`backend/processors/index.js`) -/

/-- The five format processors of the registry. -/
inductive PKind where
  | csv
  | excel
  | xml
  | pdf
  | image
  deriving DecidableEq, Repr

/-- The static `SUPPORTED_FORMATS` MIME→processor table of
`backend/processors/index.js`. -/
def SUPPORTED_FORMATS : List (String × PKind) :=
  [ ("text/csv", .csv),
    ("application/csv", .csv),
    ("application/vnd.openxmlformats-officedocument.spreadsheetml.sheet", .excel),
    ("application/vnd.ms-excel", .excel),
    ("application/xml", .xml),
    ("text/xml", .xml),
    ("application/pdf", .pdf),
    ("image/jpeg", .image),
    ("image/jpg", .image),
    ("image/png", .image),
    ("image/gif", .image),
    ("image/webp", .image),
    ("image/tiff", .image),
    ("image/bmp", .image) ]

/-- The static `EXTENSION_MAP` extension→MIME table of
`backend/processors/index.js`. -/
def EXTENSION_MAP : List (String × String) :=
  [ (".csv", "text/csv"),
    (".xlsx", "application/vnd.openxmlformats-officedocument.spreadsheetml.sheet"),
    (".xls", "application/vnd.ms-excel"),
    (".xml", "application/xml"),
    (".pdf", "application/pdf"),
    (".jpg", "image/jpeg"),
    (".jpeg", "image/jpeg"),
    (".png", "image/png"),
    (".gif", "image/gif"),
    (".webp", "image/webp"),
    (".tiff", "image/tiff"),
    (".bmp", "image/bmp") ]

/-- JS object property lookup in a static table (`TABLE[key]`),
`none` modelling `undefined`. -/
def tblLookup (tbl : List (String × α)) (k : String) : Option α :=
  (tbl.find? (fun p => p.1 == k)).map Prod.snd

/-- `filename.toLowerCase().substring(filename.lastIndexOf('.'))`:
the lowercased substring from the last `'.'` on; when there is no dot,
`lastIndexOf` returns `-1` and JS `substring(-1)` clamps to `0`, so the
whole lowercased name is returned. -/
def extOf (filename : String) : String :=
  let cs := (jsToLower filename).toList
  match cs.reverse.findIdx? (fun c => c == '.') with
  | some j => (cs.drop (cs.length - 1 - j)).asString
  | none => cs.asString

/-- The `switch (specifiedType.toLowerCase())` of `getProcessor`:
the five canonical labels, case-insensitively. -/
def canonicalOf (st : String) : Option PKind :=
  match jsToLower st with
  | "csv" => some .csv
  | "excel" => some .excel
  | "xml" => some .xml
  | "pdf" => some .pdf
  | "image" => some .image
  | _ => none

/-- The MIME-then-extension detection tail of `getProcessor`: first try
`SUPPORTED_FORMATS[mimeType]`, then map the file extension through
`EXTENSION_MAP` and look that MIME string up; `if (filename)` guards using
an empty (falsy) file name. -/
def detectProcessor (mimeType filename : String) : Option PKind :=
  match tblLookup SUPPORTED_FORMATS mimeType with
  | some p => some p
  | none =>
    if filename != "" then
      match tblLookup EXTENSION_MAP (extOf filename) with
      | some mapped => tblLookup SUPPORTED_FORMATS mapped
      | none => none
    else none

/-- `getProcessor(mimeType, filename, specifiedType)` of
`backend/processors/index.js`: a supplied truthy (non-empty)
`specifiedType` that matches one of the five canonical labels wins
outright; otherwise detection falls through to MIME type, then extension;
`none` models the JS `null` return. -/
def getProcessor (mimeType filename : String) (specifiedType : Option String) :
    Option PKind :=
  match specifiedType with
  | some st =>
    if st != "" then
      match canonicalOf st with
      | some p => some p
      | none => detectProcessor mimeType filename
    else detectProcessor mimeType filename
  | none => detectProcessor mimeType filename

/-- Prefix test on character lists. -/
def listStarts : List Char → List Char → Bool
  | [], _ => true
  | _ :: _, [] => false
  | a :: as, b :: bs => a == b && listStarts as bs

/-- Infix (contiguous-substring) test on character lists. -/
def listHasInfix (pat : List Char) : List Char → Bool
  | [] => pat.isEmpty
  | c :: rest => listStarts pat (c :: rest) || listHasInfix pat rest

/-- `mimeType.includes(sub)` — substring containment. -/
def strContains (s sub : String) : Bool :=
  listHasInfix sub.toList s.toList

/-- `detectFileType(mimeType, filename)` of `backend/processors/index.js`:
classifies by MIME substring when the MIME type is supported, else by
extension, else `"unknown"`. -/
def detectFileType (mimeType filename : String) : String :=
  let byMime : Option String :=
    if mimeType != "" && (tblLookup SUPPORTED_FORMATS mimeType).isSome then
      if strContains mimeType "csv" then some "csv"
      else if strContains mimeType "spreadsheet" || strContains mimeType "excel" then some "excel"
      else if strContains mimeType "xml" then some "xml"
      else if strContains mimeType "pdf" then some "pdf"
      else if listStarts "image/".toList mimeType.toList then some "image"
      else none
    else none
  match byMime with
  | some t => t
  | none =>
    if filename != "" then
      let ext := extOf filename
      if ext == ".csv" then "csv"
      else if ext == ".xlsx" || ext == ".xls" then "excel"
      else if ext == ".xml" then "xml"
      else if ext == ".pdf" then "pdf"
      else if [".jpg", ".jpeg", ".png", ".gif", ".webp", ".tiff", ".bmp"].contains ext then "image"
      else "unknown"
    else "unknown"

/-! ## Dispatcher (`processFile` of `backend/processors/index.js`) -/

/-- A JS object with primitive-valued fields, in insertion order. -/
abbrev JRecord := List (String × Value)

/-- JS property assignment / object-spread step `obj[k] = v`: overwrite in
place when the key exists, else append. -/
def objSet (m : List (String × α)) (k : String) (v : α) : List (String × α) :=
  if m.any (fun p => p.1 == k) then
    m.map (fun p => if p.1 == k then (k, v) else p)
  else m ++ [(k, v)]

/-- JS object spread `{ ...tgt, ...src }`: fold assignment of `src`'s
fields over `tgt`. -/
def objMerge (tgt src : List (String × α)) : List (String × α) :=
  src.foldl (fun acc p => objSet acc p.1 p.2) tgt

/-- The multer file object as the dispatcher reads it: `mimetype`,
`originalname`, `size`.  The byte contents live behind the processor
boundary and are abstracted by the `run` argument of `processFile`. -/
structure JsFile where
  mimetype : String
  originalname : String
  size : Int
  deriving DecidableEq, Repr

/-- What a Processor's `process` returns on success: `{data, errors,
metadata}`.  (All five processors in the repository return all three
fields, with `data` an array, so the `result.data || result` and
`result.recordCount || 0` fallbacks of the dispatcher take their
first branch.) -/
structure ProcResult where
  data : List JRecord
  errors : List JRecord
  metadata : List (String × Value)
  deriving DecidableEq, Repr

/-- Outcome of `await processor.process(file, metadata)`: either a result
or a thrown error carrying `error.message`. -/
inductive ProcOutcome where
  | ok (r : ProcResult)
  | thrown (msg : String)
  deriving DecidableEq, Repr

/-- The normalized envelope `{success, data, metadata, errors}` the
dispatcher returns. -/
structure Envelope where
  success : Bool
  data : List JRecord
  metadata : List (String × Value)
  errors : List JRecord
  deriving DecidableEq, Repr

/-- `options.specifiedFileType` destructured as `getProcessor` consumes it:
the claims exercise string-valued or absent entries, and a present empty
string is falsy in both `if (specifiedType)` and `specifiedFileType ||`. -/
def specifiedOf (options : List (String × Value)) : Option String :=
  match tblLookup options "specifiedFileType" with
  | some (.vstr s) => some s
  | _ => none

/-- The common metadata object `processFile` builds before invoking the
processor (`processedAt: new Date()` modelled by the epoch value `t0`;
the trailing `...options` spread included).  Field order follows the
object literal in the source. -/
def buildMetadata (file : JsFile) (options : List (String × Value)) (t0 : Nat) :
    List (String × Value) :=
  let sft := specifiedOf options
  let base : List (String × Value) :=
    [ ("originalName", .vstr file.originalname),
      ("mimeType", .vstr file.mimetype),
      ("size", .vnum file.size),
      ("processedAt", .vnum t0),
      ("processor", .vstr (match sft with
        | some st => if st != "" then st else detectFileType file.mimetype file.originalname
        | none => detectFileType file.mimetype file.originalname)),
      ("specifiedType", match sft with
        | some st => if st != "" then .vstr st else .vnull
        | none => .vnull),
      ("detectedType", .vstr (detectFileType file.mimetype file.originalname)) ]
  objMerge base options

/-- `processFile(file, options)` of `backend/processors/index.js`.
`run` abstracts the resolved processor's `process` call; `t0` is the
`new Date()` taken when metadata is built, `t1` the `Date.now()` before the
call, `t2` the `Date.now()` after it (also the catch-time `new Date()`).
`Except.error` models the `throw` on an unresolvable format; every other
path returns an envelope. -/
def processFile (file : JsFile) (options : List (String × Value))
    (run : PKind → ProcOutcome) (t0 t1 t2 : Nat) : Except String Envelope :=
  let sft := specifiedOf options
  let sftOpt : Option String := match sft with
    | some st => if st != "" then some st else none
    | none => none
  match getProcessor file.mimetype file.originalname sft with
  | none =>
    .error (match sftOpt with
      | some st => "Unsupported specified file type: " ++ st
      | none => "Unsupported file format: " ++ file.mimetype ++ " (" ++ file.originalname ++ ")")
  | some p =>
    let metadata := buildMetadata file options t0
    match run p with
    | .ok result =>
      .ok { success := true,
            data := result.data,
            metadata := objMerge
              (objSet (objSet metadata "recordCount" (.vnum result.data.length))
                "processingTime" (.vstr (toString (t2 - t1) ++ "ms")))
              result.metadata,
            errors := result.errors }
    | .thrown msg =>
      .ok { success := false,
            data := [],
            metadata := objSet metadata "processingTime"
              (.vstr (toString (t2 - t0) ++ "ms")),
            errors := [[ ("type", .vstr "processing_error"),
                         ("message", .vstr msg),
                         ("timestamp", .vnum t2) ]] }

/-! ## Excel processor (`backend/processors/excelProcessor.js`)

The `xlsx` library is the collaborator boundary: `XLSX.utils.sheet_to_json`
with `header: 1, defval: null` hands back each sheet as an array of rows of
cell values, which is where this model starts.  The impure `_id` /
`_processedAt` tags added to data entries are omitted; the discriminating
payload (`record`, `_sheet`, `_row`) is kept. -/

/-- A parsed workbook: sheet names (in `workbook.SheetNames` order) with
the row arrays `sheet_to_json` produces for each sheet. -/
abbrev Workbook := List (String × List (List Value))

/-- `row[colIndex] || null`: a falsy cell value (including `0`, `false`
and `""`) is stored as `null`; an out-of-range index reads `undefined`,
likewise stored as `null`. -/
def cellOrNull (row : List Value) (colIndex : Nat) : Value :=
  let v := row.getD colIndex .vundef
  if v.truthy then v else .vnull

/-- `record[header] = row[colIndex] || null` folded over the header row
(JS property-assignment semantics, so duplicate header names overwrite). -/
def buildRecord (headers row : List Value) : JRecord :=
  headers.enum.foldl (fun rec p => objSet rec p.2.toKey (cellOrNull row p.1)) []

/-- The `hasData` check of `validateExcelRecord`: some field value is
neither `null` nor `undefined` nor `''`. -/
def recHasData (rec : JRecord) : Bool :=
  rec.any (fun p => p.2 != Value.vnull && p.2 != Value.vundef && p.2 != Value.vstr "")

/-- `validateExcelRecord(record, sheetName, rowNumber)`: rejects exactly
the records with no data, with the single error string `"Empty row"`;
no other rule is active in the source. -/
def validateExcelRecord (rec : JRecord) : Bool × List String :=
  if recHasData rec then (true, []) else (false, ["Empty row"])

/-- A data entry pushed into `allData`: the spread record plus its
`_sheet` / `_row` tags (`_id` / `_processedAt` omitted as impure). -/
structure ExcelDataEntry where
  record : JRecord
  sheet : String
  row : Nat
  deriving DecidableEq, Repr

/-- An entry pushed into `allErrors`:
`{sheet, row, data, errors, type: 'validation_error'}`. -/
structure ExcelErrEntry where
  sheet : String
  row : Nat
  data : JRecord
  errors : List String
  type : String
  deriving DecidableEq, Repr

/-- The records a sheet's rows produce, each with its 1-based spreadsheet
row number (`index + 2`, the first row being the headers): the body of the
`rows.forEach` before validation.  An empty `jsonData` contributes nothing
(`continue`). -/
def sheetItems : List (List Value) → List (Nat × JRecord)
  | [] => []
  | headers :: dataRows =>
    dataRows.enum.map (fun p => (p.1 + 2, buildRecord headers p.2))

/-- The `rows.forEach` body for one sheet: remaining rows zipped into
records and split by validation into the sheet's data and error entries. -/
def processSheet (sheetName : String) (rows : List (List Value)) :
    List ExcelDataEntry × List ExcelErrEntry :=
  let items := sheetItems rows
  ( items.filterMap (fun p =>
      if (validateExcelRecord p.2).1 then some ⟨p.2, sheetName, p.1⟩ else none),
    items.filterMap (fun p =>
      if (validateExcelRecord p.2).1 then none
      else some ⟨sheetName, p.1, p.2, (validateExcelRecord p.2).2, "validation_error"⟩) )

/-- The metadata object the Excel processor returns. -/
structure ExcelMeta where
  sheets : List String
  totalSheets : Nat
  totalRows : Nat
  validRows : Nat
  errorRows : Nat
  deriving DecidableEq, Repr

/-- The Excel `ProcessingResult`. -/
structure ExcelResult where
  data : List ExcelDataEntry
  errors : List ExcelErrEntry
  metadata : ExcelMeta
  deriving DecidableEq, Repr

/-- `process` of `backend/processors/excelProcessor.js`, from the parsed
workbook on: sheets in order, rows in order, `allData` / `allErrors`
accumulated across sheets, metadata counts as in the source. -/
def excelProcess (wb : Workbook) : ExcelResult :=
  let perSheet := wb.map (fun p => processSheet p.1 p.2)
  let allData := (perSheet.map Prod.fst).flatten
  let allErrors := (perSheet.map Prod.snd).flatten
  { data := allData,
    errors := allErrors,
    metadata :=
      { sheets := wb.map Prod.fst,
        totalSheets := wb.length,
        totalRows := allData.length + allErrors.length,
        validRows := allData.length,
        errorRows := allErrors.length } }

/-! ## PDF processor (`backend/processors/pdfProcessor.js`)

`pdf-parse` is the collaborator boundary: it hands back `{text, numpages,
info}`, which is where this model starts.  The three heuristic extractors
run regexes over that text; each regex is embedded as a deterministic
scanner over the character list, following the JS engine's leftmost-match
and greediness rules (derived in the doc comment of each scanner).  The
scanners take a fuel argument (always called with `length + 1`, ample
since every step consumes at least one character) so that they are
structurally recursive and kernel-evaluable. -/

/-- JS regex `\s` (the ASCII members; the texts in scope contain no
Unicode spaces). -/
def isWsC (c : Char) : Bool :=
  c == ' ' || c == '\t' || c == '\n' || c == '\r' || c == '\x0b' || c == '\x0c'

/-- JS regex `\w` = `[A-Za-z0-9_]`. -/
def isWordC (c : Char) : Bool :=
  c.isAlphanum || c == '_'

/-- JS line terminators relevant here: what `.` refuses to match and
where the `m`-flag's `^` / `$` anchor. -/
def isLineTermC (c : Char) : Bool :=
  c == '\n' || c == '\r'

/-- `String.prototype.trim` on a character list. -/
def trimL (cs : List Char) : List Char :=
  ((cs.dropWhile isWsC).reverse.dropWhile isWsC).reverse

/-- `.toLowerCase()` on a character list. -/
def lowerL (cs : List Char) : List Char :=
  cs.map Char.toLower

/-- `.replace(/\s+/g, '_')`: each maximal whitespace run becomes a single
underscore.  The flag records whether we are already inside a run whose
underscore has been emitted. -/
def squashWsGo : List Char → Bool → List Char
  | [], _ => []
  | c :: rest, inRun =>
    if isWsC c then
      if inRun then squashWsGo rest true else '_' :: squashWsGo rest true
    else c :: squashWsGo rest false

/-- `trim().toLowerCase().replace(/\s+/g,'_')` — the key normalization of
`extractKeyValuePairs`. -/
def normKey (cs : List Char) : String :=
  (squashWsGo (lowerL (trimL cs)) false).asString

/-- `.toLowerCase().replace(/\s+/g,'_')` — the header/key normalization of
`extractTableData` and `extractFormData` (no trim in the source there). -/
def normKeyNoTrim (cs : List Char) : String :=
  (squashWsGo (lowerL cs) false).asString

/-- `text.split('\n')` on a character list. -/
def splitNlGo : List Char → List Char → List (List Char)
  | [], acc => [acc.reverse]
  | c :: rest, acc =>
    if c == '\n' then acc.reverse :: splitNlGo rest [] else splitNlGo rest (c :: acc)

/-- `line.split(/\s{2,}/)`: split at each maximal whitespace run of length
at least two; a single whitespace character stays inside its token.
Fuel-structural; each step consumes at least one character. -/
def splitWs2F : Nat → List Char → List Char → List (List Char)
  | 0, _, acc => [acc.reverse]
  | _, [], acc => [acc.reverse]
  | fuel + 1, c :: rest, acc =>
    if isWsC c then
      let run := (c :: rest).takeWhile isWsC
      if 2 ≤ run.length then
        acc.reverse :: splitWs2F fuel ((c :: rest).drop run.length) []
      else splitWs2F fuel rest (c :: acc)
    else splitWs2F fuel rest (c :: acc)

/-- `tablePattern.test(line)` for `/^[\w\s]+\s+[\w\s]+\s+[\w\s]+/`.
Every character of a match lies in `\w ∪ \s`, so a match exists inside the
maximal `[\w\s]` prefix `M` of the line; decomposing a match
`A·s₁·B·s₂·C` (all nonempty, `s₁ s₂ ⊆ \s`) is possible exactly when `M`
has whitespace positions `i < j` with at least one character before `i`,
at least one strictly between `i` and `j`, and at least one after `j`. -/
def tablePatternTest (cs : List Char) : Bool :=
  let M := cs.takeWhile (fun c => isWordC c || isWsC c)
  (List.range M.length).any (fun i =>
    isWsC (M.getD i ' ') && decide (1 ≤ i) &&
    (List.range M.length).any (fun j =>
      isWsC (M.getD j ' ') && decide (i + 2 ≤ j) && decide (j + 2 ≤ M.length)))

/-- `record[header] = columns[i] || ''` of the table heuristic, folded over
the headers (assignment semantics for duplicate headers). -/
def zipTableRecord (hs : List String) (columns : List (List Char)) : JRecord :=
  hs.enum.foldl (fun rec p =>
    let raw := (columns.getD p.1 []).asString
    objSet rec p.2 (.vstr (if raw != "" then raw else ""))) []

/-- The `lines.forEach` state fold of `extractTableData`: the first
matching line with more than one column becomes the (normalized) header
row; each later matching line with exactly as many columns becomes a
record; other lines leave the state unchanged. -/
def tableFold : List (List Char) → Option (List String) → List JRecord
  | [], _ => []
  | line :: rest, hdrs =>
    if tablePatternTest line then
      let columns := (splitWs2F (line.length + 1) line []).filter (fun col => 0 < col.length)
      match hdrs with
      | none =>
        if 1 < columns.length then
          tableFold rest (some (columns.map normKeyNoTrim))
        else tableFold rest none
      | some hs =>
        if columns.length = hs.length then
          zipTableRecord hs columns :: tableFold rest (some hs)
        else tableFold rest (some hs)
    else tableFold rest hdrs

/-- `extractTableData(text)`: split into trimmed nonempty lines, then the
header/data fold. -/
def extractTableData (text : List Char) : List JRecord :=
  tableFold (((splitNlGo text []).map trimL).filter (fun l => 0 < l.length)) none

/-- The `\s*(.+)$` tail of the key-value regex, matched from just after
the colon.  `\s*` first takes its maximal run (which may cross line
terminators, `\s ⊇ [\n\r]`); `.` then needs a character that is not a
line terminator, so when the maximal run reaches the end of the string
the engine backtracks to the last whitespace position holding a plain
space or tab.  The captured group runs from that point to the end of its
line (where `$` holds).  Returns the capture and the number of
characters consumed. -/
def kvValueMatch (after : List Char) : Option (List Char × Nat) :=
  let m := (after.takeWhile isWsC).length
  if m < after.length then
    let v := (after.drop m).takeWhile (fun c => !(isLineTermC c))
    some (v, m + v.length)
  else
    match ((List.range m).filter (fun s => !(isLineTermC (after.getD s '\n')))).getLast? with
    | some s =>
      let v := (after.drop s).takeWhile (fun c => !(isLineTermC c))
      some (v, s + v.length)
    | none => none

/-- The `exec` loop of `/^([^:]+):\s*(.+)$/gm` in `extractKeyValuePairs`.
A match can only start at a line start (`^`); `[^:]+`, crossing neither a
colon nor the end of input, necessarily ends at the first colon after the
start; the tail is `kvValueMatch`.  On failure the engine advances one
position; after a success it resumes at the match end (which sits on a
line terminator or at the end, so never itself a line start).  Key and
value are trimmed/normalized as in the source. -/
def kvScanF : Nat → List Char → Bool → List (String × String)
  | 0, _, _ => []
  | _, [], _ => []
  | fuel + 1, c :: rest, atStart =>
    let cs := c :: rest
    if atStart then
      let key := cs.takeWhile (fun ch => ch != ':')
      if 0 < key.length ∧ key.length < cs.length then
        let after := cs.drop (key.length + 1)
        match kvValueMatch after with
        | some (v, consumed) =>
          (normKey key, (trimL v).asString) :: kvScanF fuel (after.drop consumed) false
        | none => kvScanF fuel rest (isLineTermC c)
      else kvScanF fuel rest (isLineTermC c)
    else kvScanF fuel rest (isLineTermC c)

/-- `extractKeyValuePairs(text)`: run the scanner, then merge all pairs
into one object (`matches[key] = value`); emit it if nonempty. -/
def extractKeyValuePairs (text : List Char) : List JRecord :=
  let obj := (kvScanF (text.length + 1) text true).foldl
    (fun acc p => objSet acc p.1 (.vstr p.2)) []
  if 0 < obj.length then [obj] else []

/-- The `(?:\s+[^\s:]+)*` iteration of the form regex: each round needs a
nonempty whitespace run followed by a character that is neither
whitespace nor a colon, and then consumes that run plus the maximal
`[^\s:]` token.  Returns the number of extra characters consumed. -/
def formValueExtF : Nat → List Char → Nat
  | 0, _ => 0
  | fuel + 1, cs =>
    let ws := (cs.takeWhile isWsC).length
    if 0 < ws ∧ ws < cs.length ∧ cs.getD ws ':' ≠ ':' then
      let tok := (cs.drop ws).takeWhile (fun ch => !(isWsC ch) && ch != ':')
      ws + tok.length + formValueExtF fuel (cs.drop (ws + tok.length))
    else 0

/-- The `exec` loop of `/(\w+):\s*([^\s]+(?:\s+[^\s:]+)*)/g` in
`extractFormData`.  A match needs a maximal `\w` run immediately followed
by a colon; after the colon, `\s*` then `[^\s]+` need a non-whitespace
character after the maximal whitespace run (the first token may contain
colons); then the `formValueExtF` iteration extends the capture.  The
engine advances one position on failure, and resumes at the match end
after a success. -/
def formScanF : Nat → List Char → List (String × String)
  | 0, _ => []
  | _, [] => []
  | fuel + 1, c :: rest =>
    let cs := c :: rest
    let wordRun := cs.takeWhile isWordC
    if 0 < wordRun.length ∧ wordRun.length < cs.length ∧ cs.getD wordRun.length ' ' = ':' then
      let after := cs.drop (wordRun.length + 1)
      let ws1 := (after.takeWhile isWsC).length
      if ws1 < after.length then
        let tok1 := (after.drop ws1).takeWhile (fun ch => !(isWsC ch))
        let ext := formValueExtF (after.length + 1) (after.drop (ws1 + tok1.length))
        let value := (after.drop ws1).take (tok1.length + ext)
        (normKeyNoTrim wordRun, (trimL value).asString)
          :: formScanF fuel (after.drop (ws1 + tok1.length + ext))
      else formScanF fuel rest
    else formScanF fuel rest

/-- `extractFormData(text)`: run the scanner, merge all pairs into
`currentForm`, emit it if nonempty. -/
def extractFormData (text : List Char) : List JRecord :=
  let obj := (formScanF (text.length + 1) text).foldl
    (fun acc p => objSet acc p.1 (.vstr p.2)) []
  if 0 < obj.length then [obj] else []

/-- `extractDataFromPDF(pdfData)`: concatenate the three heuristics'
outputs in source order; if all are empty, fall back to one full-text
record. -/
def extractDataFromPDF (text : String) (numpages : Nat) : List JRecord :=
  let cs := text.toList
  let collected := extractTableData cs ++ extractKeyValuePairs cs ++ extractFormData cs
  if 0 < collected.length then collected
  else [[ ("content", .vstr text), ("type", .vstr "full_text"), ("pages", .vnum numpages) ]]

/-- `validatePdfRecord`: invalid exactly when the record has no keys
(the extractors never produce a JS-`null` item), with the single error
string `"Empty record"`. -/
def validatePdfRecord (rec : JRecord) : Bool × List String :=
  if rec.length = 0 then (false, ["Empty record"]) else (true, [])

/-- A PDF data entry (`_id` / `_processedAt` omitted as impure, `_index`
kept). -/
structure PdfDataEntry where
  record : JRecord
  index : Nat
  deriving DecidableEq, Repr

/-- A PDF error entry `{index, data, errors, type: 'validation_error'}`. -/
structure PdfErrEntry where
  index : Nat
  data : JRecord
  errors : List String
  type : String
  deriving DecidableEq, Repr

/-- The metadata object the PDF processor returns (the pass-through
`info` bag omitted). -/
structure PdfMeta where
  pages : Nat
  textLength : Nat
  totalItems : Nat
  validItems : Nat
  errorItems : Nat
  deriving DecidableEq, Repr

/-- The PDF `ProcessingResult`. -/
structure PdfResult where
  data : List PdfDataEntry
  errors : List PdfErrEntry
  metadata : PdfMeta
  deriving DecidableEq, Repr

/-- `process` of `backend/processors/pdfProcessor.js`, from the parsed
`{text, numpages}` on: extract, then split by validation with the
`forEach((item, index))` indices; metadata counts as in the source. -/
def pdfProcess (text : String) (numpages : Nat) : PdfResult :=
  let items := (extractDataFromPDF text numpages).enum
  let records := items.filterMap (fun p =>
    if (validatePdfRecord p.2).1 then some (⟨p.2, p.1⟩ : PdfDataEntry) else none)
  let errors := items.filterMap (fun p =>
    if (validatePdfRecord p.2).1 then none
    else some (⟨p.1, p.2, (validatePdfRecord p.2).2, "validation_error"⟩ : PdfErrEntry))
  { data := records,
    errors := errors,
    metadata :=
      { pages := numpages,
        textLength := text.length,
        totalItems := records.length + errors.length,
        validItems := records.length,
        errorItems := errors.length } }

/-! ## Export formatter (`exportToCSV` / `exportToExcel` / `exportToJSON` /
`flattenObject` of the export utilities module)

Records handed to the exporter may be arbitrarily nested JS values, so a
separate value type with arrays, objects and dates is used here.  A `Date`
is modelled by its ISO string (its only observable under `flattenObject`).
The `json2csv` and `xlsx` serializers are collaborator boundaries,
modelled as opaque payload constructors holding exactly what the source
passes them. -/

/-- A JSON-ish JavaScript value as the export utilities see it. -/
inductive JVal where
  | jnull
  | jbool (b : Bool)
  | jnum (n : Int)
  | jstr (s : String)
  | jdate (iso : String)
  | jarr (xs : List JVal)
  | jobj (fields : List (String × JVal))

mutual

/-- JS `ToString` of an array element inside `Array.prototype.join`:
`null`/`undefined` become the empty string, nested arrays join with a bare
comma, plain objects print `[object Object]`. -/
def JVal.joinStr : JVal → String
  | .jnull => ""
  | .jbool b => if b then "true" else "false"
  | .jnum n => toString n
  | .jstr s => s
  | .jdate iso => iso
  | .jarr xs => joinSep xs ","
  | .jobj _ => "[object Object]"

/-- `Array.prototype.join(sep)`. -/
def joinSep : List JVal → String → String
  | [], _ => ""
  | [x], _ => x.joinStr
  | x :: y :: rest, sep => x.joinStr ++ sep ++ joinSep (y :: rest) sep

end

/-- The loop body of `flattenObject(obj, prefix, separator='.')`: truthy
plain objects recurse with the compound key (the recursive call starts
from a fresh object which is then `Object.assign`ed in), arrays join with
`', '`, dates serialize to ISO, everything else (including `null`) is
assigned as-is. -/
def flattenGo (pre : String) (acc : List (String × JVal)) :
    List (String × JVal) → List (String × JVal)
  | [] => acc
  | (k, v) :: rest =>
    let nk := if pre != "" then pre ++ "." ++ k else k
    match v with
    | .jobj sub => flattenGo pre (objMerge acc (flattenGo nk [] sub)) rest
    | .jarr xs => flattenGo pre (objSet acc nk (.jstr (joinSep xs ", "))) rest
    | .jdate iso => flattenGo pre (objSet acc nk (.jstr iso)) rest
    | v' => flattenGo pre (objSet acc nk v') rest
  termination_by fs => sizeOf fs
  decreasing_by
    all_goals (simp <;> omega)

/-- `flattenObject(obj)` on an object's field list (top-level call,
empty prefix). -/
def flattenObject (fields : List (String × JVal)) : List (String × JVal) :=
  flattenGo "" [] fields

/-- The enumerable own properties `for (const key in obj)` visits when the
exporter maps `flattenObject` over the items of the data array: an
object's fields, an array's or string's indices, and nothing for other
primitives or dates. -/
def itemFields : JVal → List (String × JVal)
  | .jobj fs => fs
  | .jarr xs => xs.enum.map (fun p => (toString p.1, p.2))
  | .jstr s => s.toList.enum.map (fun p => (toString p.1, .jstr (String.singleton p.2)))
  | _ => []

/-- `flattenObject(item)` for one element of the exported array. -/
def flattenItem (v : JVal) : List (String × JVal) :=
  flattenGo "" [] (itemFields v)

/-- A value that `flattenObject` assigns through its final three branches
(not a plain object, array or `Date`): such values pass through
unchanged. -/
def flatLeaf : JVal → Bool
  | .jobj _ => false
  | .jarr _ => false
  | .jdate _ => false
  | _ => true

/-- `getAllFields(data)`: union of all keys across the flattened records,
in first-seen order (JS `Set` insertion order). -/
def getAllFields (rows : List (List (String × JVal))) : List String :=
  rows.foldl (fun acc r =>
    r.foldl (fun a p => if a.contains p.1 then a else a ++ [p.1]) acc) []

/-- What an export hands back as its `data` member: the serializer
libraries (`json2csv`, `xlsx`, `JSON.stringify`) are abstracted to
constructors holding exactly the values the source passes them. -/
inductive ExportPayload where
  | csvText (fields : List String) (rows : List (List (String × JVal)))
  | xlsxBuf (sheetName : String) (rows : List (List (String × JVal)))
  | jsonText (pretty : Bool) (v : JVal)

/-- The `{data, filename, mimeType}` object every export returns. -/
structure ExportResult where
  data : ExportPayload
  filename : String
  mimeType : String

/-- `exportToCSV(data, filename)`: reject a non-array or empty input
(the inner throw is re-wrapped by the catch with the `CSV export failed:`
preamble), otherwise flatten every item, collect the field union, and
serialize. -/
def exportToCSV (data : JVal) (filename : String) : Except String ExportResult :=
  match data with
  | .jarr items =>
    if items.length = 0 then .error "CSV export failed: No data to export"
    else
      let flattened := items.map flattenItem
      .ok { data := .csvText (getAllFields flattened) flattened,
            filename := filename ++ ".csv",
            mimeType := "text/csv" }
  | _ => .error "CSV export failed: No data to export"

/-- `exportToExcel(data, filename, sheetName)`: same guard as CSV, then
one worksheet built from the flattened items. -/
def exportToExcel (data : JVal) (filename sheetName : String) :
    Except String ExportResult :=
  match data with
  | .jarr items =>
    if items.length = 0 then .error "Excel export failed: No data to export"
    else
      let flattened := items.map flattenItem
      .ok { data := .xlsxBuf sheetName flattened,
            filename := filename ++ ".xlsx",
            mimeType := "application/vnd.openxmlformats-officedocument.spreadsheetml.sheet" }
  | _ => .error "Excel export failed: No data to export"

/-- `exportToJSON(data, filename, pretty)`: rejects only a non-array
input — an empty array passes the guard and serializes to `[]`. -/
def exportToJSON (data : JVal) (filename : String) (pretty : Bool) :
    Except String ExportResult :=
  match data with
  | .jarr _ =>
    .ok { data := .jsonText pretty data,
          filename := filename ++ ".json",
          mimeType := "application/json" }
  | _ => .error "JSON export failed: Data must be an array"

/-! ## Error-log status update (`PATCH /api/errors/:id/status` of
`backend/routes/errors.js`, over the error-log schema's
`status` enum) -/

/-- The closed `status` enum of the error-log schema. -/
inductive EStatus where
  | unresolved
  | resolved
  | ignored
  deriving DecidableEq, Repr

/-- The `validStatuses.includes(status)` check of the route (exact,
case-sensitive string match). -/
def statusOf : String → Option EStatus
  | "UNRESOLVED" => some .unresolved
  | "RESOLVED" => some .resolved
  | "IGNORED" => some .ignored
  | _ => none

/-- The mutable résolution fields of a persisted error log (the immutable
payload fields are irrelevant to the status lifecycle). -/
structure ErrorLogDoc where
  status : EStatus
  resolvedAt : Option Nat
  resolvedBy : Option String
  resolutionNotes : Option String
  deriving DecidableEq, Repr

/-- The update the `PATCH /api/errors/:id/status` handler applies through
`findByIdAndUpdate`: reject a status outside the enum; on `RESOLVED`
additionally stamp `resolvedAt := now` and `resolvedBy || 'System'`, and
copy truthy `resolutionNotes`; no guard consults the document's current
status.  `none` / `some ""` model absent / falsy request fields. -/
def updateErrorStatus (doc : ErrorLogDoc) (target : String)
    (resolvedBy resolutionNotes : Option String) (now : Nat) :
    Except String ErrorLogDoc :=
  match statusOf target with
  | none => .error "Invalid status. Must be one of: UNRESOLVED, RESOLVED, IGNORED"
  | some st =>
    if st = .resolved then
      .ok { doc with
        status := st,
        resolvedAt := some now,
        resolvedBy := some (match resolvedBy with
          | some s => if s != "" then s else "System"
          | none => "System"),
        resolutionNotes := match resolutionNotes with
          | some s => if s != "" then some s else doc.resolutionNotes
          | none => doc.resolutionNotes }
    else .ok { doc with status := st }

/-! ## Helper lemmas -/

/-- In a list whose keys are distinct, a key determines its payload. -/
theorem keyInj {κ α : Type} (l : List (κ × α)) (hnd : (l.map Prod.fst).Nodup)
    {r : κ} {a b : α} (ha : (r, a) ∈ l) (hb : (r, b) ∈ l) : a = b := by
  induction l with
  | nil => cases ha
  | cons hd tl ih =>
    rw [List.map_cons, List.nodup_cons] at hnd
    obtain ⟨hhd, htl⟩ := hnd
    rcases List.mem_cons.mp ha with ha' | ha' <;>
      rcases List.mem_cons.mp hb with hb' | hb'
    · exact congrArg Prod.snd (ha'.trans hb'.symm)
    · exact absurd (List.mem_map_of_mem Prod.fst hb') (by rw [← ha'] at hhd; exact hhd)
    · exact absurd (List.mem_map_of_mem Prod.fst ha') (by rw [← hb'] at hhd; exact hhd)
    · exact ih htl ha' hb'

/-- Splitting a list by a predicate through two complementary `filterMap`s
preserves the total length. -/
theorem filterMap_split_length {α β γ : Type} (l : List α) (p : α → Bool)
    (f : α → β) (g : α → γ) :
    (l.filterMap (fun x => if p x then some (f x) else none)).length
      + (l.filterMap (fun x => if p x then none else some (g x))).length
      = l.length := by
  induction l with
  | nil => rfl
  | cons hd tl ih =>
    by_cases h : p hd <;> simp [List.filterMap_cons, h] <;> omega

/-! ## C1 — the dispatcher converts processor throws into a failure
envelope -/

/-- C1: whenever a processor is resolved for the upload and its `process`
call throws, `processFile` returns (rather than throws) the failure
envelope: `success := false`, empty `data`, the request metadata with a
processing time stamped on, and exactly one error entry of type
`processing_error` carrying the thrown message and a timestamp. -/
theorem processFile_catches_processor_throw
    (file : JsFile) (options : List (String × Value)) (run : PKind → ProcOutcome)
    (t0 t1 t2 : Nat) (p : PKind) (msg : String)
    (hres : getProcessor file.mimetype file.originalname (specifiedOf options) = some p)
    (hrun : run p = .thrown msg) :
    processFile file options run t0 t1 t2 =
      .ok { success := false,
            data := [],
            metadata := objSet (buildMetadata file options t0) "processingTime"
              (.vstr (toString (t2 - t0) ++ "ms")),
            errors := [[ ("type", .vstr "processing_error"),
                         ("message", .vstr msg),
                         ("timestamp", .vnum t2) ]] } := by
  simp only [processFile, hres, hrun]

/-- Witness for C1 at a concrete upload: a CSV upload whose processor
throws `"boom"` yields the failure envelope. -/
theorem processFile_catches_processor_throw_witness :
    getProcessor "text/csv" "data.csv" (specifiedOf []) = some .csv
    ∧ (fun _ : PKind => ProcOutcome.thrown "boom") PKind.csv = .thrown "boom"
    ∧ processFile ⟨"text/csv", "data.csv", 10⟩ []
        (fun _ => .thrown "boom") 5 6 9 =
      .ok { success := false,
            data := [],
            metadata := objSet (buildMetadata ⟨"text/csv", "data.csv", 10⟩ [] 5)
              "processingTime" (.vstr (toString (9 - 5) ++ "ms")),
            errors := [[ ("type", .vstr "processing_error"),
                         ("message", .vstr "boom"),
                         ("timestamp", .vnum 9) ]] } :=
  ⟨by decide, rfl,
    processFile_catches_processor_throw ⟨"text/csv", "data.csv", 10⟩ []
      (fun _ => .thrown "boom") 5 6 9 .csv "boom" (by decide) rfl⟩

/-! ## C2 — a valid `specifiedType` overrides detection -/

/-- C2: a non-empty `specifiedType` matching one of the five canonical
labels case-insensitively selects that processor, whatever the MIME type
and file name say. -/
theorem getProcessor_override (mimeType filename st : String) (p : PKind)
    (hne : st ≠ "") (hcanon : canonicalOf st = some p) :
    getProcessor mimeType filename (some st) = some p := by
  simp only [getProcessor]
  rw [if_pos (by simpa using hne), hcanon]

/-- Witness for C2: `specifiedType = "CSV"` beats a PDF MIME type and a
PNG extension. -/
theorem getProcessor_override_witness :
    ("CSV" : String) ≠ "" ∧ canonicalOf "CSV" = some .csv
    ∧ getProcessor "application/pdf" "photo.png" (some "CSV") = some .csv :=
  ⟨by decide, by decide,
    getProcessor_override "application/pdf" "photo.png" "CSV" .csv
      (by decide) (by decide)⟩

/-! ## C4 — MIME-table match takes precedence over the extension chain -/

/-- C4: with no usable `specifiedType` (absent, empty, or not one of the
five labels), a MIME type present in `SUPPORTED_FORMATS` decides the
processor even when the file extension maps to a different one. -/
theorem getProcessor_mime_over_extension
    (mimeType filename : String) (specifiedType : Option String) (p q : PKind)
    (hst : ∀ st, specifiedType = some st → st = "" ∨ canonicalOf st = none)
    (hmime : tblLookup SUPPORTED_FORMATS mimeType = some p)
    (hext : (tblLookup EXTENSION_MAP (extOf filename)).bind
      (tblLookup SUPPORTED_FORMATS) = some q)
    (hne : q ≠ p) :
    getProcessor mimeType filename specifiedType = some p := by
  have hdet : detectProcessor mimeType filename = some p := by
    unfold detectProcessor
    rw [hmime]
  cases specifiedType with
  | none => simp only [getProcessor]; exact hdet
  | some st =>
    simp only [getProcessor]
    by_cases hst0 : st = ""
    · rw [if_neg (by simp [hst0])]; exact hdet
    · rcases hst st rfl with h | h
      · exact absurd h hst0
      · rw [if_pos (by simpa using hst0), h]; exact hdet

/-- Witness for C4: declared MIME `text/csv` with file name
`report.xlsx` (whose extension chain yields the Excel processor)
resolves to the CSV processor. -/
theorem getProcessor_mime_over_extension_witness :
    (∀ st, (none : Option String) = some st → st = "" ∨ canonicalOf st = none)
    ∧ tblLookup SUPPORTED_FORMATS "text/csv" = some .csv
    ∧ (tblLookup EXTENSION_MAP (extOf "report.xlsx")).bind
        (tblLookup SUPPORTED_FORMATS) = some .excel
    ∧ PKind.excel ≠ PKind.csv
    ∧ getProcessor "text/csv" "report.xlsx" none = some .csv :=
  ⟨(fun st h => nomatch h), by decide, by decide, by decide,
    getProcessor_mime_over_extension "text/csv" "report.xlsx" none .csv .excel
      (fun st h => nomatch h) (by decide) (by decide) (by decide)⟩

/-! ## Lemmas on record building and validation -/

/-- An element of `objSet m k v` is an element of `m` or the new pair. -/
theorem objSet_mem {α : Type} {m : List (String × α)} {k : String} {v : α}
    {q : String × α} (h : q ∈ objSet m k v) : q ∈ m ∨ q = (k, v) := by
  unfold objSet at h
  split at h
  · rcases List.mem_map.mp h with ⟨x, hx, heq⟩
    by_cases hk : (x.1 == k) = true
    · right; rw [if_pos hk] at heq; exact heq.symm
    · left; rw [if_neg hk] at heq; exact heq ▸ hx
  · rcases List.mem_append.mp h with h' | h'
    · exact Or.inl h'
    · exact Or.inr (List.mem_singleton.mp h')

/-- A fold of `objSet` steps preserves a predicate on stored values. -/
theorem foldl_objSet_vals {α β : Type} (P : α → Prop) (l : List β)
    (key : β → String) (val : β → α) (acc : List (String × α))
    (hacc : ∀ q ∈ acc, P q.2) (hval : ∀ x, P (val x)) :
    ∀ q ∈ l.foldl (fun rec p => objSet rec (key p) (val p)) acc, P q.2 := by
  induction l generalizing acc with
  | nil => exact hacc
  | cons hd tl ih =>
    refine ih (objSet acc (key hd) (val hd)) (fun q hq => ?_)
    rcases objSet_mem hq with h | h
    · exact hacc q h
    · rw [h]; exact hval hd

/-- A cell survives `|| null` as `null` or as a truthy value. -/
theorem cellOrNull_spec (row : List Value) (i : Nat) :
    cellOrNull row i = .vnull ∨ (cellOrNull row i).truthy := by
  simp only [cellOrNull]
  split
  · right; assumption
  · left; rfl

/-- Every field of a built record is `null` or truthy. -/
theorem buildRecord_vals (headers row : List Value) :
    ∀ q ∈ buildRecord headers row, q.2 = .vnull ∨ q.2.truthy := by
  unfold buildRecord
  exact foldl_objSet_vals (fun v => v = .vnull ∨ v.truthy) headers.enum
    (fun p => p.2.toKey) (fun p => cellOrNull row p.1) []
    (fun q hq => nomatch hq) (fun x => cellOrNull_spec row x.1)

/-- On a `null`-or-truthy field value, the `hasData` membership test of
`validateExcelRecord` coincides with truthiness. -/
theorem hasData_pred_eq_truthy (v : Value) (hv : v = .vnull ∨ v.truthy) :
    (v != Value.vnull && v != Value.vundef && v != Value.vstr "") = v.truthy := by
  rcases hv with h | h
  · subst h; rfl
  · cases v with
    | vnull => simp [Value.truthy] at h
    | vundef => simp [Value.truthy] at h
    | vbool b => simp [Value.truthy] at h; simp [Value.truthy, h]
    | vnum n =>
      have h1 : (Value.vnum n != Value.vnull) = true := by simp
      have h2 : (Value.vnum n != Value.vundef) = true := by simp
      have h3 : (Value.vnum n != Value.vstr "") = true := by simp
      rw [h1, h2, h3]
      simp [Value.truthy] at h
      simp [Value.truthy, h]
    | vstr s =>
      have h1 : (Value.vstr s != Value.vnull) = true := by simp
      have h2 : (Value.vstr s != Value.vundef) = true := by simp
      rw [h1, h2]
      by_cases hs : s = ""
      · subst hs; decide
      · have h3 : (Value.vstr s != Value.vstr "") = true := by simp [hs]
        rw [h3]
        simp [Value.truthy, hs]

/-- On records whose fields are all `null`-or-truthy (all built records
are), the `hasData` check coincides with having a truthy field. -/
theorem recHasData_eq_any_truthy (rec : JRecord)
    (hvals : ∀ q ∈ rec, q.2 = .vnull ∨ q.2.truthy) :
    recHasData rec = rec.any (fun p => p.2.truthy) := by
  induction rec with
  | nil => rfl
  | cons hd tl ih =>
    have hhd := hvals hd (List.mem_cons_self hd tl)
    have htl := ih (fun q hq => hvals q (List.mem_cons_of_mem hd hq))
    simp only [recHasData] at htl ⊢
    rw [List.any_cons, List.any_cons, htl, hasData_pred_eq_truthy hd.2 hhd]

/-- The validity bit of a built record is exactly "some field is
truthy". -/
theorem validate_buildRecord (headers row : List Value) :
    (validateExcelRecord (buildRecord headers row)).1
      = (buildRecord headers row).any (fun p => p.2.truthy) := by
  unfold validateExcelRecord
  rw [recHasData_eq_any_truthy _ (buildRecord_vals headers row)]
  cases hb : (buildRecord headers row).any (fun p => p.2.truthy) <;> simp [hb]

/-- Row numbers inside one sheet are distinct. -/
theorem sheetItems_fst_nodup (rows : List (List Value)) :
    ((sheetItems rows).map Prod.fst).Nodup := by
  cases rows with
  | nil => exact List.nodup_nil
  | cons headers dataRows =>
    have h1 : (sheetItems (headers :: dataRows)).map Prod.fst
        = (dataRows.enum.map Prod.fst).map (fun x => x + 2) := by
      simp only [sheetItems, List.map_map]
      rfl
    rw [h1]
    exact (List.nodup_enum_map_fst _).map (fun a b h => by omega)

/-- Characterization of the data entries of one processed sheet. -/
theorem mem_processSheet_data {n : String} {rows : List (List Value)}
    {d : ExcelDataEntry} :
    d ∈ (processSheet n rows).1 ↔
      d.sheet = n ∧ (validateExcelRecord d.record).1 = true
        ∧ (d.row, d.record) ∈ sheetItems rows := by
  simp only [processSheet, List.mem_filterMap]
  constructor
  · rintro ⟨p, hp, hpe⟩
    split at hpe
    · next hval =>
      cases hpe
      exact ⟨rfl, hval, hp⟩
    · cases hpe
  · rintro ⟨hs, hv, hm⟩
    refine ⟨(d.row, d.record), hm, ?_⟩
    rw [if_pos hv]
    cases d
    cases hs
    rfl

/-- Characterization of the error entries of one processed sheet. -/
theorem mem_processSheet_err {n : String} {rows : List (List Value)}
    {e : ExcelErrEntry} :
    e ∈ (processSheet n rows).2 ↔
      e.sheet = n ∧ (validateExcelRecord e.data).1 = false
        ∧ e.errors = (validateExcelRecord e.data).2 ∧ e.type = "validation_error"
        ∧ (e.row, e.data) ∈ sheetItems rows := by
  simp only [processSheet, List.mem_filterMap]
  constructor
  · rintro ⟨p, hp, hpe⟩
    split at hpe
    · cases hpe
    · next hval =>
      cases hpe
      exact ⟨rfl, Bool.not_eq_true _ ▸ hval, rfl, rfl, hp⟩
  · rintro ⟨hs, hv, herr, hty, hm⟩
    refine ⟨(e.row, e.data), hm, ?_⟩
    rw [if_neg (by simp [hv])]
    obtain ⟨sh, r2, da, er, ty⟩ := e
    dsimp only at hs herr hty ⊢
    subst hs
    subst herr
    subst hty
    rfl

/-- Characterization of the data entries of the whole workbook. -/
theorem mem_excelProcess_data {wb : Workbook} {d : ExcelDataEntry} :
    d ∈ (excelProcess wb).data ↔
      ∃ rows, (d.sheet, rows) ∈ wb ∧ (validateExcelRecord d.record).1 = true
        ∧ (d.row, d.record) ∈ sheetItems rows := by
  constructor
  · intro hd
    simp only [excelProcess, List.map_map, List.mem_flatten, List.mem_map] at hd
    obtain ⟨l, ⟨pr, hpr, rfl⟩, hdl⟩ := hd
    rw [Function.comp_apply, mem_processSheet_data] at hdl
    obtain ⟨hs, hv, hm⟩ := hdl
    exact ⟨pr.2, by rw [hs]; exact hpr, hv, hm⟩
  · rintro ⟨rows, hmem, hv, hm⟩
    simp only [excelProcess, List.map_map, List.mem_flatten, List.mem_map]
    exact ⟨(processSheet d.sheet rows).1, ⟨(d.sheet, rows), hmem, rfl⟩,
      mem_processSheet_data.mpr ⟨rfl, hv, hm⟩⟩

/-- Characterization of the error entries of the whole workbook. -/
theorem mem_excelProcess_err {wb : Workbook} {e : ExcelErrEntry} :
    e ∈ (excelProcess wb).errors ↔
      ∃ rows, (e.sheet, rows) ∈ wb ∧ (validateExcelRecord e.data).1 = false
        ∧ e.errors = (validateExcelRecord e.data).2 ∧ e.type = "validation_error"
        ∧ (e.row, e.data) ∈ sheetItems rows := by
  constructor
  · intro he
    simp only [excelProcess, List.map_map, List.mem_flatten, List.mem_map] at he
    obtain ⟨l, ⟨pr, hpr, rfl⟩, hel⟩ := he
    rw [Function.comp_apply, mem_processSheet_err] at hel
    obtain ⟨hs, hv, herr, hty, hm⟩ := hel
    exact ⟨pr.2, by rw [hs]; exact hpr, hv, herr, hty, hm⟩
  · rintro ⟨rows, hmem, hv, herr, hty, hm⟩
    simp only [excelProcess, List.map_map, List.mem_flatten, List.mem_map]
    exact ⟨(processSheet e.sheet rows).2, ⟨(e.sheet, rows), hmem, rfl⟩,
      mem_processSheet_err.mpr ⟨rfl, hv, herr, hty, hm⟩⟩

/-- Characterization of the PDF data entries. -/
theorem mem_pdfProcess_data {text : String} {np : Nat} {d : PdfDataEntry} :
    d ∈ (pdfProcess text np).data ↔
      (validatePdfRecord d.record).1 = true
        ∧ (d.index, d.record) ∈ (extractDataFromPDF text np).enum := by
  simp only [pdfProcess, List.mem_filterMap]
  constructor
  · rintro ⟨p, hp, hpe⟩
    split at hpe
    · next hval =>
      cases hpe
      exact ⟨hval, hp⟩
    · cases hpe
  · rintro ⟨hv, hm⟩
    refine ⟨(d.index, d.record), hm, ?_⟩
    rw [if_pos hv]

/-- Characterization of the PDF error entries. -/
theorem mem_pdfProcess_err {text : String} {np : Nat} {e : PdfErrEntry} :
    e ∈ (pdfProcess text np).errors ↔
      (validatePdfRecord e.data).1 = false
        ∧ e.errors = (validatePdfRecord e.data).2 ∧ e.type = "validation_error"
        ∧ (e.index, e.data) ∈ (extractDataFromPDF text np).enum := by
  simp only [pdfProcess, List.mem_filterMap]
  constructor
  · rintro ⟨p, hp, hpe⟩
    split at hpe
    · cases hpe
    · next hval =>
      cases hpe
      exact ⟨Bool.not_eq_true _ ▸ hval, rfl, rfl, hp⟩
  · rintro ⟨hv, herr, hty, hm⟩
    refine ⟨(e.index, e.data), hm, ?_⟩
    rw [if_neg (by simp [hv])]
    obtain ⟨ix, da, er, ty⟩ := e
    dsimp only at herr hty ⊢
    subst herr
    subst hty
    rfl

/-! ## C3 — totals and data/error disjointness of processing results -/

/-- C3: for the Excel and PDF processors (the two whose result assembly
lives in this repository), the reported total
(`totalRows` for Excel, `totalItems` for PDF) equals
`data.length + errors.length`, and no extracted item lands in both
arrays: an Excel (sheet, row) position, or a PDF item index, never occurs
in `data` and `errors` at once (sheet names assumed distinct, as
`SheetNames` of a real workbook are). -/
theorem processingResult_totals_and_disjoint
    (wb : Workbook) (text : String) (np : Nat)
    (hnd : (wb.map Prod.fst).Nodup) :
    ((excelProcess wb).metadata.totalRows
        = (excelProcess wb).data.length + (excelProcess wb).errors.length)
    ∧ ((pdfProcess text np).metadata.totalItems
        = (pdfProcess text np).data.length + (pdfProcess text np).errors.length)
    ∧ (∀ s r, (∃ d ∈ (excelProcess wb).data, d.sheet = s ∧ d.row = r)
        → ¬ ∃ e ∈ (excelProcess wb).errors, e.sheet = s ∧ e.row = r)
    ∧ (∀ i, (∃ d ∈ (pdfProcess text np).data, d.index = i)
        → ¬ ∃ e ∈ (pdfProcess text np).errors, e.index = i) := by
  refine ⟨rfl, rfl, ?_, ?_⟩
  · rintro s r ⟨d, hd, hds, hdr⟩ ⟨e, he, hes, her⟩
    obtain ⟨rows, hrows, hv, hm⟩ := mem_excelProcess_data.mp hd
    obtain ⟨rows', hrows', hv', _, _, hm'⟩ := mem_excelProcess_err.mp he
    rw [hds] at hrows
    rw [hes] at hrows'
    obtain rfl := keyInj wb hnd hrows hrows'
    rw [hdr] at hm
    rw [her] at hm'
    have hrec := keyInj (sheetItems rows) (sheetItems_fst_nodup rows) hm hm'
    rw [← hrec, hv] at hv'
    cases hv'
  · rintro i ⟨d, hd, hdi⟩ ⟨e, he, hei⟩
    obtain ⟨hv, hm⟩ := mem_pdfProcess_data.mp hd
    obtain ⟨hv', _, _, hm'⟩ := mem_pdfProcess_err.mp he
    rw [hdi] at hm
    rw [hei] at hm'
    have hrec := keyInj _ (List.nodup_enum_map_fst _) hm hm'
    rw [← hrec, hv] at hv'
    cases hv'

/-- Witness for C3 at a one-sheet workbook (a header row, one data row,
one empty row) and the Scenario-B PDF text. -/
theorem processingResult_totals_and_disjoint_witness :
    (([("S", [[Value.vstr "h"], [Value.vstr "x"], [Value.vnull]])] : Workbook).map
        Prod.fst).Nodup
    ∧ (((excelProcess [("S", [[Value.vstr "h"], [Value.vstr "x"], [Value.vnull]])]).metadata.totalRows
        = (excelProcess [("S", [[Value.vstr "h"], [Value.vstr "x"], [Value.vnull]])]).data.length
          + (excelProcess [("S", [[Value.vstr "h"], [Value.vstr "x"], [Value.vnull]])]).errors.length)
    ∧ ((pdfProcess "Name: John\nAge: 30" 1).metadata.totalItems
        = (pdfProcess "Name: John\nAge: 30" 1).data.length
          + (pdfProcess "Name: John\nAge: 30" 1).errors.length)
    ∧ (∀ s r, (∃ d ∈ (excelProcess [("S", [[Value.vstr "h"], [Value.vstr "x"], [Value.vnull]])]).data,
          d.sheet = s ∧ d.row = r)
        → ¬ ∃ e ∈ (excelProcess [("S", [[Value.vstr "h"], [Value.vstr "x"], [Value.vnull]])]).errors,
            e.sheet = s ∧ e.row = r)
    ∧ (∀ i, (∃ d ∈ (pdfProcess "Name: John\nAge: 30" 1).data, d.index = i)
        → ¬ ∃ e ∈ (pdfProcess "Name: John\nAge: 30" 1).errors, e.index = i)) :=
  ⟨by decide,
    processingResult_totals_and_disjoint
      [("S", [[Value.vstr "h"], [Value.vstr "x"], [Value.vnull]])]
      "Name: John\nAge: 30" 1 (by decide)⟩

/-- A record that fails validation fails with exactly `["Empty row"]`. -/
theorem validate_snd_of_false (rec : JRecord)
    (h : (validateExcelRecord rec).1 = false) :
    (validateExcelRecord rec).2 = ["Empty row"] := by
  unfold validateExcelRecord at h ⊢
  split at h
  · cases h
  · rename_i hc
    rw [if_neg hc]

/-- The i-th data row of a sheet, as a member of the sheet's items. -/
theorem sheetItems_mem_of_getElem {headers : List Value}
    {dataRows : List (List Value)} {i : Nat} {row : List Value}
    (hrow : dataRows[i]? = some row) :
    (i + 2, buildRecord headers row) ∈ sheetItems (headers :: dataRows) := by
  have henum : (i, row) ∈ dataRows.enum := by
    have h1 : dataRows.enum[i]? = some (i, row) := by
      rw [List.getElem?_enum, hrow, Option.map_some']
    obtain ⟨hlt, hget⟩ := List.getElem?_eq_some.mp h1
    exact hget ▸ List.getElem_mem hlt
  exact List.mem_map.mpr ⟨(i, row), henum, rfl⟩

/-! ## C5 — Excel row construction and the empty-row rejection rule -/

/-- Counterexample to C5 as stated: the one-column sheet whose single data
row holds the number `0` — a field that is neither null, undefined nor the
empty string — is nevertheless rejected as an empty row (the record
builder's `row[colIndex] || null` coerces every falsy cell to null), so the
row lands in `errors` and `data` stays empty. -/
theorem excelProcess_zero_row_counterexample :
    (excelProcess [("Sheet1", [[Value.vstr "a"], [Value.vnum 0]])]).data = []
    ∧ (excelProcess [("Sheet1", [[Value.vstr "a"], [Value.vnum 0]])]).errors
        = [⟨"Sheet1", 2, [("a", Value.vnull)], ["Empty row"], "validation_error"⟩] := by
  decide

/-- C5 (amended): the Excel processor builds one record per non-header
row per sheet, keyed by the header names; the record builder stores null
for missing cells and for every falsy cell value (0, false, the empty
string), so each stored field is null or truthy; a row is rejected into
`errors` as an `Empty row` validation error exactly when no stored field
is truthy, and placed in `data` exactly when some stored field is truthy,
with no other validation applied. -/
theorem excelProcess_row_routing
    (n : String) (headers row : List Value) (dataRows : List (List Value))
    (i : Nat) (hrow : dataRows[i]? = some row) :
    ((∃ d ∈ (processSheet n (headers :: dataRows)).1,
        d.row = i + 2 ∧ d.record = buildRecord headers row)
      ↔ (buildRecord headers row).any (fun p => p.2.truthy) = true)
    ∧ ((∃ e ∈ (processSheet n (headers :: dataRows)).2,
        e.row = i + 2 ∧ e.data = buildRecord headers row
          ∧ e.errors = ["Empty row"])
      ↔ (buildRecord headers row).any (fun p => p.2.truthy) = false)
    ∧ (∀ q ∈ buildRecord headers row, q.2 = .vnull ∨ q.2.truthy)
    ∧ (processSheet n (headers :: dataRows)).1.length
        + (processSheet n (headers :: dataRows)).2.length = dataRows.length := by
  have hmem := @sheetItems_mem_of_getElem headers _ _ _ hrow
  refine ⟨⟨?_, ?_⟩, ⟨?_, ?_⟩, buildRecord_vals headers row, ?_⟩
  · rintro ⟨d, hd, _, hrec⟩
    obtain ⟨_, hv, _⟩ := mem_processSheet_data.mp hd
    rw [hrec, validate_buildRecord] at hv
    exact hv
  · intro hany
    refine ⟨⟨buildRecord headers row, n, i + 2⟩, ?_, rfl, rfl⟩
    exact mem_processSheet_data.mpr
      ⟨rfl, by rw [validate_buildRecord]; exact hany, hmem⟩
  · rintro ⟨e, he, _, hrec, _⟩
    obtain ⟨_, hv, _, _, _⟩ := mem_processSheet_err.mp he
    rw [hrec, validate_buildRecord] at hv
    exact hv
  · intro hany
    have hval : (validateExcelRecord (buildRecord headers row)).1 = false := by
      rw [validate_buildRecord]; exact hany
    refine ⟨⟨n, i + 2, buildRecord headers row,
        (validateExcelRecord (buildRecord headers row)).2, "validation_error"⟩,
      ?_, rfl, rfl, validate_snd_of_false _ hval⟩
    exact mem_processSheet_err.mpr ⟨rfl, hval, rfl, rfl, hmem⟩
  · have hsplit := filterMap_split_length (sheetItems (headers :: dataRows))
      (fun p => (validateExcelRecord p.2).1)
      (fun p => (⟨p.2, n, p.1⟩ : ExcelDataEntry))
      (fun p => (⟨n, p.1, p.2, (validateExcelRecord p.2).2,
        "validation_error"⟩ : ExcelErrEntry))
    have hlen : (sheetItems (headers :: dataRows)).length = dataRows.length := by
      simp [sheetItems, List.enum_length]
    rw [← hlen]
    exact hsplit

/-- Witness for C5 (amended) at the counterexample sheet: the all-falsy
row `[0]` satisfies the rejected-iff-no-truthy-field rule. -/
theorem excelProcess_row_routing_witness :
    (([[Value.vnum 0]] : List (List Value))[0]? = some [Value.vnum 0])
    ∧ (((∃ d ∈ (processSheet "Sheet1" ([[Value.vstr "a"]] ++ [[Value.vnum 0]])).1,
        d.row = 0 + 2 ∧ d.record = buildRecord [Value.vstr "a"] [Value.vnum 0])
      ↔ (buildRecord [Value.vstr "a"] [Value.vnum 0]).any (fun p => p.2.truthy) = true)
    ∧ ((∃ e ∈ (processSheet "Sheet1" ([[Value.vstr "a"]] ++ [[Value.vnum 0]])).2,
        e.row = 0 + 2 ∧ e.data = buildRecord [Value.vstr "a"] [Value.vnum 0]
          ∧ e.errors = ["Empty row"])
      ↔ (buildRecord [Value.vstr "a"] [Value.vnum 0]).any (fun p => p.2.truthy) = false)
    ∧ (∀ q ∈ buildRecord [Value.vstr "a"] [Value.vnum 0], q.2 = .vnull ∨ q.2.truthy)
    ∧ (processSheet "Sheet1" ([[Value.vstr "a"]] ++ [[Value.vnum 0]])).1.length
        + (processSheet "Sheet1" ([[Value.vstr "a"]] ++ [[Value.vnum 0]])).2.length
        = [[Value.vnum 0]].length) :=
  ⟨by decide,
    excelProcess_row_routing "Sheet1" [Value.vstr "a"] [Value.vnum 0]
      [[Value.vnum 0]] 0 (by decide)⟩

/-! ## C6 — Scenario B: the PDF `"Name: John\nAge: 30"` -/

/-- Counterexample to C6 as stated: on the PDF text
`"Name: John\nAge: 30"` the processor's `data` does not hold exactly one
record — the form-data heuristic fires as well as the key-value one, so
two records come back. -/
theorem pdfProcess_scenarioB_counterexample :
    (pdfProcess "Name: John\nAge: 30" 1).data.length ≠ 1 := by
  decide

/-- C6 (amended): on the PDF text `"Name: John\nAge: 30"` the processor
returns exactly two data records — `{name: "John", age: "30"}` from the
key-value heuristic, then `{name: "John\nAge"}` from the looser form
heuristic (whose `(?:\s+[^\s:]+)*` value capture crosses the newline and
swallows `Age` before `": 30"` can match again) — and an empty `errors`
array. -/
theorem pdfProcess_scenarioB :
    pdfProcess "Name: John\nAge: 30" 1 =
      { data := [ ⟨[("name", Value.vstr "John"), ("age", Value.vstr "30")], 0⟩,
                  ⟨[("name", Value.vstr "John\nAge")], 1⟩ ],
        errors := [],
        metadata := { pages := 1, textLength := 18, totalItems := 2,
                      validItems := 2, errorItems := 0 } } := by
  decide

/-! ## C7 — export input guards -/

/-- Counterexample to C7 as stated: `exportToJSON` does not throw on an
empty array — its guard only rejects non-arrays, so `[]` exports
successfully. -/
theorem exportToJSON_empty_counterexample :
    exportToJSON (.jarr []) "export" true
      = .ok ⟨.jsonText true (.jarr []), "export.json", "application/json"⟩ := rfl

/-- C7 (amended): `exportToCSV` and `exportToExcel` throw their explicit
`No data to export` error on a non-array or empty input and return a
`{data, filename, mimeType}` result otherwise; `exportToJSON` throws its
`Data must be an array` error only on a non-array input and returns a
result for every array, the empty array included. -/
theorem export_guards (items : List JVal) (v : JVal) (fn sn : String)
    (pretty : Bool) (hv : ∀ l, v ≠ .jarr l) (hne : items ≠ []) :
    (∃ r, exportToCSV (.jarr items) fn = .ok r
        ∧ r.filename = fn ++ ".csv" ∧ r.mimeType = "text/csv")
    ∧ exportToCSV (.jarr []) fn = .error "CSV export failed: No data to export"
    ∧ exportToCSV v fn = .error "CSV export failed: No data to export"
    ∧ (∃ r, exportToExcel (.jarr items) fn sn = .ok r
        ∧ r.filename = fn ++ ".xlsx"
        ∧ r.mimeType = "application/vnd.openxmlformats-officedocument.spreadsheetml.sheet")
    ∧ exportToExcel (.jarr []) fn sn = .error "Excel export failed: No data to export"
    ∧ exportToExcel v fn sn = .error "Excel export failed: No data to export"
    ∧ (∃ r, exportToJSON (.jarr items) fn pretty = .ok r
        ∧ r.filename = fn ++ ".json" ∧ r.mimeType = "application/json")
    ∧ (∃ r, exportToJSON (.jarr []) fn pretty = .ok r
        ∧ r.filename = fn ++ ".json" ∧ r.mimeType = "application/json")
    ∧ exportToJSON v fn pretty = .error "JSON export failed: Data must be an array" := by
  have hlen : ¬ items.length = 0 := by simpa [List.length_eq_zero] using hne
  refine ⟨⟨⟨.csvText (getAllFields (items.map flattenItem)) (items.map flattenItem),
      fn ++ ".csv", "text/csv"⟩, ?_, rfl, rfl⟩, rfl, ?_,
    ⟨⟨.xlsxBuf sn (items.map flattenItem), fn ++ ".xlsx",
      "application/vnd.openxmlformats-officedocument.spreadsheetml.sheet"⟩, ?_, rfl, rfl⟩,
    rfl, ?_,
    ⟨⟨.jsonText pretty (.jarr items), fn ++ ".json", "application/json"⟩, rfl, rfl, rfl⟩,
    ⟨⟨.jsonText pretty (.jarr []), fn ++ ".json", "application/json"⟩, rfl, rfl, rfl⟩,
    ?_⟩
  · simp only [exportToCSV]
    rw [if_neg hlen]
  · cases v <;> first | rfl | exact absurd rfl (hv _)
  · simp only [exportToExcel]
    rw [if_neg hlen]
  · cases v <;> first | rfl | exact absurd rfl (hv _)
  · cases v <;> first | rfl | exact absurd rfl (hv _)

/-- Witness for C7 (amended) at a one-record array, a `null` non-array
input and the base name `"export"`. -/
theorem export_guards_witness :
    (∀ l, (JVal.jnull : JVal) ≠ .jarr l) ∧ ([JVal.jnum 1] ≠ ([] : List JVal))
    ∧ ((∃ r, exportToCSV (.jarr [JVal.jnum 1]) "export" = .ok r
        ∧ r.filename = "export" ++ ".csv" ∧ r.mimeType = "text/csv")
    ∧ exportToCSV (.jarr []) "export" = .error "CSV export failed: No data to export"
    ∧ exportToCSV .jnull "export" = .error "CSV export failed: No data to export"
    ∧ (∃ r, exportToExcel (.jarr [JVal.jnum 1]) "export" "Data" = .ok r
        ∧ r.filename = "export" ++ ".xlsx"
        ∧ r.mimeType = "application/vnd.openxmlformats-officedocument.spreadsheetml.sheet")
    ∧ exportToExcel (.jarr []) "export" "Data" = .error "Excel export failed: No data to export"
    ∧ exportToExcel .jnull "export" "Data" = .error "Excel export failed: No data to export"
    ∧ (∃ r, exportToJSON (.jarr [JVal.jnum 1]) "export" true = .ok r
        ∧ r.filename = "export" ++ ".json" ∧ r.mimeType = "application/json")
    ∧ (∃ r, exportToJSON (.jarr []) "export" true = .ok r
        ∧ r.filename = "export" ++ ".json" ∧ r.mimeType = "application/json")
    ∧ exportToJSON .jnull "export" true = .error "JSON export failed: Data must be an array") :=
  ⟨(fun l h => nomatch h), (by simp),
    export_guards [JVal.jnum 1] .jnull "export" "Data" true
      (fun l h => nomatch h) (by simp)⟩

/-! ## Lemmas on `flattenObject` -/

/-- `objSet` preserves flatness of stored values. -/
theorem objSet_flat {m : List (String × JVal)} {k : String} {v : JVal}
    (hm : ∀ p ∈ m, flatLeaf p.2 = true) (hv : flatLeaf v = true) :
    ∀ p ∈ objSet m k v, flatLeaf p.2 = true := by
  intro p hp
  rcases objSet_mem hp with h | h
  · exact hm p h
  · rw [h]; exact hv

/-- `objMerge` preserves flatness of stored values. -/
theorem objMerge_flat {tgt src : List (String × JVal)}
    (ht : ∀ p ∈ tgt, flatLeaf p.2 = true) (hs : ∀ p ∈ src, flatLeaf p.2 = true) :
    ∀ p ∈ objMerge tgt src, flatLeaf p.2 = true := by
  induction src generalizing tgt with
  | nil => exact ht
  | cons hd tl ih =>
    refine ih (objSet_flat ht (hs hd (List.mem_cons_self hd tl)))
      (fun p hp => hs p (List.mem_cons_of_mem hd hp))

/-- The key list of `objSet m k v`: unchanged when the key was present,
extended by `k` otherwise. -/
theorem objSet_keys (m : List (String × α)) (k : String) (v : α) :
    (objSet m k v).map Prod.fst =
      if m.any (fun p => p.1 == k) then m.map Prod.fst
      else m.map Prod.fst ++ [k] := by
  unfold objSet
  split
  · rw [List.map_map]
    refine List.map_congr_left (fun p _ => ?_)
    by_cases hk : (p.1 == k) = true
    · simp only [Function.comp_apply, if_pos hk]
      exact (eq_of_beq hk).symm
    · simp only [Function.comp_apply, if_neg hk]
  · rw [List.map_append]
    rfl

/-- A key absent from `m.any`'s view is absent from the key list. -/
theorem not_mem_keys_of_any_false {m : List (String × α)} {k : String}
    (h : ¬ m.any (fun p => p.1 == k) = true) : k ∉ m.map Prod.fst := by
  intro hk
  rcases List.mem_map.mp hk with ⟨p, hp, hpk⟩
  exact h (List.any_eq_true.mpr ⟨p, hp, by rw [hpk]; exact beq_self_eq_true k⟩)

/-- `objSet` preserves distinctness of keys. -/
theorem objSet_keys_nodup {m : List (String × α)} {k : String} {v : α}
    (h : (m.map Prod.fst).Nodup) : ((objSet m k v).map Prod.fst).Nodup := by
  rw [objSet_keys]
  split
  · exact h
  · next hany =>
    rw [List.nodup_append]
    exact ⟨h, List.nodup_singleton k,
      fun a ha hb => (List.mem_singleton.mp hb ▸ not_mem_keys_of_any_false hany) ha⟩

/-- `objMerge` preserves distinctness of keys. -/
theorem objMerge_keys_nodup {tgt src : List (String × α)}
    (h : (tgt.map Prod.fst).Nodup) :
    ((objMerge tgt src).map Prod.fst).Nodup := by
  induction src generalizing tgt with
  | nil => exact h
  | cons hd tl ih => exact ih (objSet_keys_nodup h)

/-- Every value stored by `flattenObject`'s loop is flat: sub-objects are
recursed into, arrays and dates are serialized to strings, and only
leaves are assigned as-is. -/
theorem flattenGo_flat (pre : String) (acc fs : List (String × JVal))
    (hacc : ∀ p ∈ acc, flatLeaf p.2 = true) :
    ∀ p ∈ flattenGo pre acc fs, flatLeaf p.2 = true := by
  induction pre, acc, fs using flattenGo.induct with
  | case1 => simpa only [flattenGo] using hacc
  | case2 pre acc k rest nk sub ih3 ih2 ih1 =>
    rw [flattenGo]
    exact ih1 (objMerge_flat hacc (ih3 (fun p hp => nomatch hp)))
  | case3 pre acc k rest nk xs ih1 =>
    rw [flattenGo]
    exact ih1 (objSet_flat hacc rfl)
  | case4 pre acc k rest nk iso ih1 =>
    rw [flattenGo]
    exact ih1 (objSet_flat hacc rfl)
  | case5 pre acc k rest nk v' hno hna hnd ih1 =>
    rw [flattenGo]
    · refine ih1 (objSet_flat hacc ?_)
      cases v' with
      | jobj sub => exact absurd rfl (hno sub)
      | jarr xs => exact absurd rfl (hna xs)
      | jdate iso => exact absurd rfl (hnd iso)
      | jnull => rfl
      | jbool b => rfl
      | jnum n => rfl
      | jstr s => rfl
    · exact hno
    · exact hna
    · exact hnd

/-- The key list `flattenObject`'s loop produces is duplicate-free. -/
theorem flattenGo_keys_nodup (pre : String) (acc fs : List (String × JVal))
    (hacc : ((acc.map Prod.fst)).Nodup) :
    (((flattenGo pre acc fs).map Prod.fst)).Nodup := by
  induction pre, acc, fs using flattenGo.induct with
  | case1 => simpa only [flattenGo] using hacc
  | case2 pre acc k rest nk sub ih3 ih2 ih1 =>
    rw [flattenGo]
    exact ih1 (objMerge_keys_nodup hacc)
  | case3 pre acc k rest nk xs ih1 =>
    rw [flattenGo]
    exact ih1 (objSet_keys_nodup hacc)
  | case4 pre acc k rest nk iso ih1 =>
    rw [flattenGo]
    exact ih1 (objSet_keys_nodup hacc)
  | case5 pre acc k rest nk v' hno hna hnd ih1 =>
    rw [flattenGo]
    · exact ih1 (objSet_keys_nodup hacc)
    · exact hno
    · exact hna
    · exact hnd

/-- On an already-flat field list, the loop with an empty prefix is a
plain fold of assignments (no branch but the final one ever fires, and
the compound key degenerates to the key itself). -/
theorem flattenGo_flat_eq_foldl (acc fs : List (String × JVal))
    (hfs : ∀ p ∈ fs, flatLeaf p.2 = true) :
    flattenGo "" acc fs = fs.foldl (fun a p => objSet a p.1 p.2) acc := by
  induction fs generalizing acc with
  | nil => rw [flattenGo]; rfl
  | cons hd tl ih =>
    have hhd := hfs hd (List.mem_cons_self hd tl)
    have htl := fun p hp => hfs p (List.mem_cons_of_mem hd hp)
    obtain ⟨k, v⟩ := hd
    cases v with
    | jobj sub => cases hhd
    | jarr xs => cases hhd
    | jdate iso => cases hhd
    | jnull =>
      rw [flattenGo]
      · rw [List.foldl_cons]; exact ih _ htl
      · exact fun _ h => nomatch h
      · exact fun _ h => nomatch h
      · exact fun _ h => nomatch h
    | jbool b =>
      rw [flattenGo]
      · rw [List.foldl_cons]; exact ih _ htl
      · exact fun _ h => nomatch h
      · exact fun _ h => nomatch h
      · exact fun _ h => nomatch h
    | jnum n =>
      rw [flattenGo]
      · rw [List.foldl_cons]; exact ih _ htl
      · exact fun _ h => nomatch h
      · exact fun _ h => nomatch h
      · exact fun _ h => nomatch h
    | jstr s =>
      rw [flattenGo]
      · rw [List.foldl_cons]; exact ih _ htl
      · exact fun _ h => nomatch h
      · exact fun _ h => nomatch h
      · exact fun _ h => nomatch h

/-- Assigning `k` into an object that lacks it appends the pair. -/
theorem objSet_eq_append_of_not_mem {m : List (String × α)} {k : String}
    (v : α) (h : k ∉ m.map Prod.fst) : objSet m k v = m ++ [(k, v)] := by
  unfold objSet
  rw [if_neg (fun hany => ?_)]
  rcases List.any_eq_true.mp hany with ⟨p, hp, hpk⟩
  exact h (List.mem_map.mpr ⟨p, hp, eq_of_beq hpk⟩)

/-- Folding assignments of pairwise-distinct, fresh keys appends them all
in order. -/
theorem foldl_objSet_eq_append (fs acc : List (String × α))
    (hnd : (fs.map Prod.fst).Nodup)
    (hdisj : ∀ k ∈ fs.map Prod.fst, k ∉ acc.map Prod.fst) :
    fs.foldl (fun a p => objSet a p.1 p.2) acc = acc ++ fs := by
  induction fs generalizing acc with
  | nil => rw [List.foldl_nil, List.append_nil]
  | cons hd tl ih =>
    rw [List.map_cons, List.nodup_cons] at hnd
    have hstep : objSet acc hd.1 hd.2 = acc ++ [(hd.1, hd.2)] :=
      objSet_eq_append_of_not_mem hd.2 (hdisj hd.1 (by simp))
    have hdisj2 : ∀ k ∈ tl.map Prod.fst, k ∉ (acc ++ [(hd.1, hd.2)]).map Prod.fst := by
      intro k hk hmem
      rw [List.map_append] at hmem
      rcases List.mem_append.mp hmem with h | h
      · exact hdisj k (List.mem_cons_of_mem _ hk) h
      · simp only [List.map_cons, List.map_nil, List.mem_singleton] at h
        exact hnd.1 (h ▸ hk)
    rw [List.foldl_cons, hstep, ih _ hnd.2 hdisj2, List.append_assoc]
    rfl

/-! ## C8 — flattening compounds nested keys and joins arrays -/

/-- Counterexample to C8's universal part: under an empty outer key the
prefix stays falsy (`prefix ? ... : key`), so the nested key passes
through bare — `{"": {b: 1}}` flattens to `{"b": 1}`, not to the
`'.'`-joined `{".b": 1}`. -/
theorem flattenObject_empty_key_counterexample :
    flattenObject [("", .jobj [("b", .jnum 1)])] = [("b", .jnum 1)]
    ∧ flattenObject [("", .jobj [("b", .jnum 1)])] ≠ [("" ++ "." ++ "b", .jnum 1)] := by
  have h1 : flattenObject [("", .jobj [("b", .jnum 1)])] = [("b", .jnum 1)] := by
    simp [flattenObject, flattenGo, objMerge, objSet]
  refine ⟨h1, ?_⟩
  rw [h1]
  intro h
  simp at h

/-- C8 (amended): `flattenObject` maps `{a: {b: 1}}` to `{"a.b": 1}` and
`{a: [1, 2]}` to `{"a": "1, 2"}`; a field with a non-empty name holding
an object of one leaf flattens to the `'.'`-joined compound key with the
leaf unchanged (an empty outer key, being falsy, leaves the nested key
bare), and a field holding any array flattens to the elements joined by
`", "`. -/
theorem flattenObject_compound_and_join (a b : String) (v : JVal)
    (xs : List JVal) (ha : a ≠ "") (hflat : flatLeaf v = true) :
    flattenObject [("a", .jobj [("b", .jnum 1)])] = [("a.b", .jnum 1)]
    ∧ flattenObject [("a", .jarr [.jnum 1, .jnum 2])] = [("a", .jstr "1, 2")]
    ∧ flattenObject [(a, .jobj [(b, v)])] = [(a ++ "." ++ b, v)]
    ∧ flattenObject [(a, .jarr xs)] = [(a, .jstr (joinSep xs ", "))] := by
  have hbne : (a != "") = true := by simpa using ha
  refine ⟨?_, ?_, ?_, ?_⟩
  · simp [flattenObject, flattenGo, objMerge, objSet]
  · simp [flattenObject, flattenGo, objSet, joinSep, JVal.joinStr]
    rfl
  · cases v with
    | jobj sub => cases hflat
    | jarr ys => cases hflat
    | jdate iso => cases hflat
    | jnull => simp [flattenObject, flattenGo, objMerge, objSet, hbne]
    | jbool bb => simp [flattenObject, flattenGo, objMerge, objSet, hbne]
    | jnum n => simp [flattenObject, flattenGo, objMerge, objSet, hbne]
    | jstr s => simp [flattenObject, flattenGo, objMerge, objSet, hbne]
  · simp [flattenObject, flattenGo, objSet]

/-- Witness for C8 at `a := "p", b := "q", v := true, xs := [null]`. -/
theorem flattenObject_compound_and_join_witness :
    ("p" : String) ≠ "" ∧ flatLeaf (.jbool true) = true
    ∧ (flattenObject [("a", .jobj [("b", .jnum 1)])] = [("a.b", .jnum 1)]
    ∧ flattenObject [("a", .jarr [.jnum 1, .jnum 2])] = [("a", .jstr "1, 2")]
    ∧ flattenObject [("p", .jobj [("q", .jbool true)])] = [("p" ++ "." ++ "q", .jbool true)]
    ∧ flattenObject [("p", .jarr [.jnull])] = [("p", .jstr (joinSep [.jnull] ", "))]) :=
  ⟨by decide, rfl,
    flattenObject_compound_and_join "p" "q" (.jbool true) [.jnull]
      (by decide) rfl⟩

/-! ## C10 — `flattenObject` is idempotent -/

/-- C10: flattening an already-flattened object changes nothing — the
values of a flattened object are never plain objects, arrays or dates, so
a second pass re-assigns every key-value pair unchanged. -/
theorem flattenObject_idempotent (fs : List (String × JVal)) :
    flattenObject (flattenObject fs) = flattenObject fs := by
  have hflat : ∀ p ∈ flattenObject fs, flatLeaf p.2 = true :=
    flattenGo_flat "" [] fs (fun p hp => nomatch hp)
  have hnd : ((flattenObject fs).map Prod.fst).Nodup :=
    flattenGo_keys_nodup "" [] fs List.nodup_nil
  show flattenGo "" [] (flattenObject fs) = flattenObject fs
  rw [flattenGo_flat_eq_foldl [] _ hflat,
    foldl_objSet_eq_append _ [] hnd (fun k _ hk => nomatch hk),
    List.nil_append]

/-! ## C9 — error-log status transitions -/

/-- Counterexample to C9 as stated: a log already `RESOLVED` is moved
back to `UNRESOLVED` by the status-update operation — the route
validates only membership in the enum and never consults the current
status, so terminal states are not sticky. -/
theorem updateErrorStatus_terminal_counterexample :
    updateErrorStatus ⟨.resolved, some 5, some "ops", none⟩ "UNRESOLVED" none none 9
      = .ok ⟨.unresolved, some 5, some "ops", none⟩
    ∧ EStatus.unresolved ≠ EStatus.resolved :=
  ⟨rfl, by decide⟩

/-- C9 (amended): the status-update operation accepts any target status
in the closed enum and applies it whatever the document's current status
is — transitions out of `RESOLVED` / `IGNORED` do occur; only a target
outside the enum is rejected. -/
theorem updateErrorStatus_applies_any_valid
    (doc : ErrorLogDoc) (target : String) (rb notes : Option String)
    (now : Nat) (st : EStatus) (h : statusOf target = some st) :
    ∃ doc2, updateErrorStatus doc target rb notes now = .ok doc2
      ∧ doc2.status = st := by
  unfold updateErrorStatus
  rw [h]
  dsimp only
  by_cases hr : st = .resolved
  · subst hr
    rw [if_pos rfl]
    exact ⟨_, rfl, rfl⟩
  · rw [if_neg hr]
    exact ⟨_, rfl, rfl⟩

/-- Witness for C9 (amended): an `IGNORED` log accepts a `RESOLVED`
update. -/
theorem updateErrorStatus_applies_any_valid_witness :
    statusOf "RESOLVED" = some .resolved
    ∧ ∃ doc2, updateErrorStatus ⟨.ignored, none, none, none⟩ "RESOLVED"
        none none 7 = .ok doc2 ∧ doc2.status = .resolved :=
  ⟨by decide,
    updateErrorStatus_applies_any_valid ⟨.ignored, none, none, none⟩
      "RESOLVED" none none 7 .resolved (by decide)⟩

end VizFlow
